import Mathlib

/-!
Shallow embedding of the vanvitelli agent core: the event filtering and
aggregation logic (src/events/policy.rs) and the versioned gatherer
registry (src/gatherers/registry.rs).

Rust HashMap values are modelled as association lists (`List (String × α)`)
with lookup of the unique entry per key and in-place replacing insert;
HashMap iteration order is unspecified in Rust, and no statement below
depends on the order of entries. Rust String ordering (byte-wise
lexicographic on UTF-8, which coincides with codepoint-wise lexicographic
order) is modelled by an executable comparator on the character list.
Panics are modelled by `Option` (`none` = panic); fallible functions
return `Except`.
-/

namespace Vanvitelli

/-- Decidable equality for Except results, used to evaluate the embedded
functions on concrete inputs. -/
instance {ε α : Type} [DecidableEq ε] [DecidableEq α] : DecidableEq (Except ε α) :=
  fun x y =>
    match x, y with
    | Except.error a, Except.error b =>
      if h : a = b then isTrue (by rw [h])
      else isFalse (by intro hc; cases hc; exact h rfl)
    | Except.error _, Except.ok _ => isFalse (by intro hc; cases hc)
    | Except.ok _, Except.error _ => isFalse (by intro hc; cases hc)
    | Except.ok a, Except.ok b =>
      if h : a = b then isTrue (by rw [h])
      else isFalse (by intro hc; cases hc; exact h rfl)

/-- Lookup in an association list: the value of the first entry whose key
matches, as Rust's HashMap::get (keys are unique in all maps built here). -/
def alGet {α : Type} (k : String) : List (String × α) → Option α
  | [] => none
  | p :: ps => if p.1 = k then some p.2 else alGet k ps

/-- Insert in an association list: replace the value in place if the key is
present, append a new entry otherwise, as Rust's HashMap::insert. -/
def alInsert {α : Type} (k : String) (v : α) : List (String × α) → List (String × α)
  | [] => [(k, v)]
  | p :: ps => if p.1 = k then (k, v) :: ps else p :: alInsert k v ps

/-- Byte-wise (equivalently codepoint-wise) lexicographic order on character
lists, embedding the `Ord` instance Rust's `Vec::sort` uses on `String`. -/
def charListLe : List Char → List Char → Bool
  | [], _ => true
  | _ :: _, [] => false
  | a :: as, b :: bs => if a < b then true else if b < a then false else charListLe as bs

/-- Lexicographic order on strings, as compared by Rust's `String: Ord`. -/
def strLe (a b : String) : Bool := charListLe a.data b.data

/-- The ordering relation used to sort version strings. -/
def strLeRel (a b : String) : Prop := strLe a b = true

instance : DecidableRel strLeRel := fun a b => instDecidableEqBool (strLe a b) true

/-- Split of a character list on a separator character, embedding Rust's
`str::split`: the empty input yields one empty piece, and `n` separators
yield `n + 1` pieces. -/
def splitSep (sep : Char) : List Char → List (List Char)
  | [] => [[]]
  | c :: cs =>
    if c = sep then [] :: splitSep sep cs
    else
      match splitSep sep cs with
      | [] => [[c]]
      | p :: ps => (c :: p) :: ps

/-- Split of a string on a separator character, as Rust's
`gatherer_name.split("@").collect::<Vec<&str>>()`. -/
def stringSplit (sep : Char) (s : String) : List String :=
  (splitSep sep s.data).map (fun cs => String.mk cs)

/-! ## Data model (src/gatherers/facts.rs and the event contract) -/

/-- A fact request as carried by the inbound event
(trento_contracts stub FactRequest): the four fields the core reads. -/
structure EventFactRequest where
  argument : String
  check_id : String
  gatherer : String
  name : String
deriving DecidableEq

/-- One target of a FactsGatheringRequested event
(trento_contracts stub FactsGatheringRequestedTarget). -/
structure FactsGatheringRequestedTarget where
  agent_id : String
  fact_requests : List EventFactRequest
deriving DecidableEq

/-- The decoded payload of a FactsGatheringRequested event. -/
structure FactsGatheringRequested where
  execution_id : String
  group_id : String
  targets : List FactsGatheringRequestedTarget
deriving DecidableEq

/-- The domain fact request (src/gatherers/facts.rs FactRequest). -/
structure FactRequest where
  argument : String
  check_id : String
  gatherer : String
  name : String
deriving DecidableEq

/-- The aggregated gathering request (src/gatherers/facts.rs
FactsGatheringRequest); the HashMap field is an association list. -/
structure FactsGatheringRequest where
  execution_id : String
  group_id : String
  facts_requests_by_gatherer : List (String × List FactRequest)
deriving DecidableEq

/-- Field-wise copy of an event fact request into a domain FactRequest, as
the struct literal inside map_fact_gathering_request_from_event. -/
def toFactRequest (event_request : EventFactRequest) : FactRequest :=
  { argument := event_request.argument
    check_id := event_request.check_id
    gatherer := event_request.gatherer
    name := event_request.name }

/-- The flat_map over targets in map_fact_gathering_request_from_event. -/
def flattenedFactRequests (event_requests : List FactsGatheringRequestedTarget) :
    List FactRequest :=
  event_requests.flatMap (fun target => target.fact_requests.map toFactRequest)

/-- One iteration of the grouping loop of
map_fact_gathering_request_from_event: read the bucket of the request's
gatherer (empty if absent), push the request, write the bucket back. -/
def groupStep (m : List (String × List FactRequest)) (request : FactRequest) :
    List (String × List FactRequest) :=
  alInsert request.gatherer ((alGet request.gatherer m).getD [] ++ [request]) m

/-- src/events/policy.rs map_fact_gathering_request_from_event: flatten the
targets' fact requests, then group them by their gatherer field. -/
def map_fact_gathering_request_from_event
    (event_requests : List FactsGatheringRequestedTarget)
    (execution_id group_id : String) : FactsGatheringRequest :=
  let fact_requests := flattenedFactRequests event_requests
  let fact_requests_for_gatherer := fact_requests.foldl groupStep []
  { execution_id := execution_id
    group_id := group_id
    facts_requests_by_gatherer := fact_requests_for_gatherer }

/-! ## EventsPolicy (src/events/policy.rs) -/

/-- The event type tag recognized by the policy. -/
def FACTS_GATHERING_REQUEST_EVENT_TYPE : String :=
  "Trento.Checks.V1.FactsGatheringRequested"

/-- The events policy, holding the local agent identity. -/
structure EventsPolicy where
  agent_id : String
deriving DecidableEq

/-- EventsPolicy::new: rejects an empty agent_id. -/
def EventsPolicy.new (agent_id : String) : Except String EventsPolicy :=
  if agent_id.length = 0 then Except.error "missing agent_id, cannot create Policy"
  else Except.ok { agent_id := agent_id }

/-- src/events/policy.rs EventsPolicy::handle_event. The envelope and
payload decoding are external collaborators (trento_contracts); the raw
event is embedded as the two decode outcomes. The `Option
FactsGatheringRequest` in the result is the aggregated request handed to
the next stage: the source logs and returns Ok(()) on every successful
path and never invokes map_fact_gathering_request_from_event, so every
successful path yields `none`. -/
def EventsPolicy.handle_event (self : EventsPolicy)
    (event_type : Except String String)
    (payload : Except String FactsGatheringRequested) :
    Except String (Option FactsGatheringRequest) :=
  match event_type with
  | Except.error e => Except.error e
  | Except.ok decoded_type =>
    if decoded_type = FACTS_GATHERING_REQUEST_EVENT_TYPE then
      match payload with
      | Except.error e => Except.error e
      | Except.ok facts_request_event =>
        let facts_request_for_agent := facts_request_event.targets.filter
          (fun t => t.agent_id == self.agent_id)
        if facts_request_for_agent.isEmpty then
          Except.ok none
        else
          Except.ok none
    else
      Except.ok none

/-! ## GatherersRegistry (src/gatherers/registry.rs) -/

/-- The registry error enum (src/gatherers/registry.rs RegistryErrors). -/
inductive RegistryErrors where
  | GathererNotFoundError (name : String)
  | GathererNameAndVersionError (name : String)
deriving DecidableEq

/-- The versioned gatherer registry: a map from gatherer name to a map from
version string to the (shared) gatherer handle. The handle type `G` is
abstract; in Rust it is `Arc<dyn Gatherer>` and handles are compared as the
same shared handle. -/
structure GatherersRegistry (G : Type) where
  gatherers : List (String × List (String × G))

/-- src/gatherers/registry.rs extract_version_and_gatherer_name: split the
reference on the at sign; one piece means no version, two pieces mean an
explicit version, anything else is a format error carrying the whole
original reference. -/
def extract_version_and_gatherer_name (gatherer_name : String) :
    Except RegistryErrors (String × Option String) :=
  let parts := stringSplit '@' gatherer_name
  if parts.length = 1 then Except.ok (parts.getD 0 "", none)
  else if parts.length ≠ 2 then
    Except.error (RegistryErrors.GathererNameAndVersionError gatherer_name)
  else Except.ok (parts.getD 0 "", some (parts.getD 1 ""))

/-- src/gatherers/registry.rs GatherersRegistry::get_latest_version_for_gatherer:
collect the version keys registered for the name, sort them (Rust
Vec::sort, ascending string order) and take the last. The source calls
`versions.last().unwrap()`; the `unwrap` panic on an empty version map is
modelled by the outer `Option` being `none`. -/
def GatherersRegistry.get_latest_version_for_gatherer {G : Type}
    (self : GatherersRegistry G) (name : String) :
    Option (Except RegistryErrors String) :=
  match alGet name self.gatherers with
  | some versioned_gatherers =>
      ((List.insertionSort strLeRel (versioned_gatherers.map Prod.fst)).getLast?).map
        Except.ok
  | none => some (Except.error (RegistryErrors.GathererNotFoundError name))

/-- src/gatherers/registry.rs GatherersRegistry::get_gatherer. The source
computes `version.unwrap_or(self.get_latest_version_for_gatherer(&gatherer_name)?)`:
Rust evaluates the `unwrap_or` argument eagerly, so
get_latest_version_for_gatherer runs (and its error or panic propagates)
even when an explicit version was given. The outer `Option` is `none`
exactly when the source would panic. -/
def GatherersRegistry.get_gatherer {G : Type} (self : GatherersRegistry G)
    (name : String) : Option (Except RegistryErrors G) :=
  match extract_version_and_gatherer_name name with
  | Except.error e => some (Except.error e)
  | Except.ok (gatherer_name, version) =>
    match self.get_latest_version_for_gatherer gatherer_name with
    | none => none
    | some (Except.error e) => some (Except.error e)
    | some (Except.ok latest) =>
      let latest_version := version.getD latest
      match (alGet gatherer_name self.gatherers).bind (alGet latest_version) with
      | some gatherer => some (Except.ok gatherer)
      | none => some (Except.error (RegistryErrors.GathererNotFoundError name))

/-- The registry builder: the accumulated list of
(name, version, gatherer) registrations, in call order
(src/gatherers/registry.rs GatherersRegistryBuilder). -/
structure GatherersRegistryBuilder (G : Type) where
  gatherers : List (String × String × G)

/-- GatherersRegistryBuilder::new. -/
def GatherersRegistryBuilder.new (G : Type) : GatherersRegistryBuilder G := ⟨[]⟩

/-- GatherersRegistryBuilder::add_gatherer: push one registration. -/
def GatherersRegistryBuilder.add_gatherer {G : Type}
    (self : GatherersRegistryBuilder G) (name version : String) (gatherer : G) :
    GatherersRegistryBuilder G :=
  ⟨self.gatherers ++ [(name, version, gatherer)]⟩

/-- One iteration of the build loop of
GatherersRegistryBuilder::build_registry: insert into the existing inner
version map when the name is present, otherwise create a fresh inner map. -/
def buildStep {G : Type} (m : List (String × List (String × G)))
    (a : String × String × G) : List (String × List (String × G)) :=
  match alGet a.1 m with
  | some versioned_gatherers => alInsert a.1 (alInsert a.2.1 a.2.2 versioned_gatherers) m
  | none => alInsert a.1 (alInsert a.2.1 a.2.2 []) m

/-- src/gatherers/registry.rs GatherersRegistryBuilder::build_registry. -/
def GatherersRegistryBuilder.build_registry {G : Type}
    (self : GatherersRegistryBuilder G) : GatherersRegistry G :=
  ⟨self.gatherers.foldl buildStep []⟩

/-- Nested lookup of the handle registered under a (name, version) pair. -/
def registryLookup {G : Type} (r : GatherersRegistry G) (name version : String) :
    Option G :=
  (alGet name r.gatherers).bind (alGet version)

/-- The last registration for a (name, version) pair in a builder's list:
the handle a built registry holds for that pair, if any. -/
def lastWrite {G : Type} (adds : List (String × String × G)) (name version : String) :
    Option G :=
  (adds.reverse.find? (fun a => a.1 == name && a.2.1 == version)).map
    (fun a => a.2.2)

/-! ## Association list lemmas -/

theorem alGet_insert_self {α : Type} (k : String) (v : α) (m : List (String × α)) :
    alGet k (alInsert k v m) = some v := by
  induction m with
  | nil => simp [alGet, alInsert]
  | cons p ps ih =>
    by_cases h : p.1 = k
    · simp [alGet, alInsert, h]
    · simp [alGet, alInsert, h, ih]

theorem alGet_insert_ne {α : Type} {k k' : String} (v : α) (m : List (String × α))
    (h : k' ≠ k) : alGet k' (alInsert k v m) = alGet k' m := by
  have hkk' : ¬ (k = k') := fun hc => h hc.symm
  induction m with
  | nil => simp [alGet, alInsert, hkk']
  | cons p ps ih =>
    by_cases hp : p.1 = k
    · have hpk' : ¬ (p.1 = k') := by rw [hp]; exact hkk'
      simp [alGet, alInsert, hp, hkk', hpk']
    · by_cases hp' : p.1 = k'
      · simp [alGet, alInsert, hp, hp', h]
      · simp [alGet, alInsert, hp, hp', ih]

theorem keys_alInsert {α : Type} (k : String) (v : α) (m : List (String × α)) :
    (alInsert k v m).map Prod.fst =
      if k ∈ m.map Prod.fst then m.map Prod.fst else m.map Prod.fst ++ [k] := by
  induction m with
  | nil => simp [alInsert]
  | cons p ps ih =>
    by_cases h : p.1 = k
    · subst h
      simp [alInsert]
    · have hk' : ¬ (k = p.1) := fun hc => h hc.symm
      by_cases hk : k ∈ ps.map Prod.fst <;>
        simp [alInsert, h, ih, hk, hk', List.mem_cons]

theorem nodup_keys_alInsert {α : Type} (k : String) (v : α) (m : List (String × α))
    (h : (m.map Prod.fst).Nodup) : ((alInsert k v m).map Prod.fst).Nodup := by
  rw [keys_alInsert]
  split
  · exact h
  · next hk => simp [List.nodup_append, h, hk]

theorem alGet_eq_none_iff {α : Type} (k : String) (m : List (String × α)) :
    alGet k m = none ↔ k ∉ m.map Prod.fst := by
  induction m with
  | nil => simp [alGet]
  | cons p ps ih =>
    by_cases h : p.1 = k
    · simp [alGet, h]
    · have hk' : ¬ (k = p.1) := fun hc => h hc.symm
      simp only [alGet]
      rw [if_neg h, ih]
      simp [List.mem_cons, hk']

theorem alGet_isSome_of_mem_keys {α : Type} {k : String} {m : List (String × α)}
    (h : k ∈ m.map Prod.fst) : ∃ v, alGet k m = some v := by
  cases hg : alGet k m with
  | none => exact absurd ((alGet_eq_none_iff k m).mp hg) (by simp [h])
  | some v => exact ⟨v, rfl⟩

theorem alGet_mem {α : Type} {k : String} {v : α} {m : List (String × α)}
    (h : alGet k m = some v) : (k, v) ∈ m := by
  induction m with
  | nil => simp [alGet] at h
  | cons p ps ih =>
    by_cases hp : p.1 = k
    · simp [alGet, hp] at h
      subst h
      have hkp : (k, p.2) = p := by rw [← hp]
      rw [hkp]
      exact List.mem_cons_self _ _
    · simp [alGet, hp] at h
      exact List.mem_cons_of_mem _ (ih h)

theorem mem_alInsert {α : Type} {p : String × α} {k : String} {v : α}
    {m : List (String × α)} (h : p ∈ alInsert k v m) : p = (k, v) ∨ p ∈ m := by
  induction m with
  | nil => simpa [alInsert] using h
  | cons q qs ih =>
    by_cases hq : q.1 = k
    · simp [alInsert, hq] at h
      rcases h with h | h
      · exact Or.inl h
      · exact Or.inr (List.mem_cons_of_mem _ h)
    · simp [alInsert, hq] at h
      rcases h with h | h
      · exact Or.inr (by simp [h])
      · rcases ih h with h' | h'
        · exact Or.inl h'
        · exact Or.inr (List.mem_cons_of_mem _ h')

theorem alGet_of_mem_nodup {α : Type} {p : String × α} {m : List (String × α)}
    (hn : (m.map Prod.fst).Nodup) (h : p ∈ m) : alGet p.1 m = some p.2 := by
  induction m with
  | nil => simp at h
  | cons q qs ih =>
    rcases List.mem_cons.mp h with h' | h'
    · subst h'
      simp [alGet]
    · have hq : q.1 ≠ p.1 := by
        intro hc
        have : p.1 ∈ qs.map Prod.fst := List.mem_map_of_mem Prod.fst h'
        rw [List.map_cons, List.nodup_cons] at hn
        exact hn.1 (hc ▸ this)
      have hn' : (qs.map Prod.fst).Nodup := by
        rw [List.map_cons, List.nodup_cons] at hn
        exact hn.2
      simp [alGet, hq, ih hn' h']

/-! ## Grouping lemmas -/

theorem groupFold_alGet (l : List FactRequest) (m : List (String × List FactRequest))
    (k : String) :
    alGet k (l.foldl groupStep m) =
      if alGet k m = none ∧ l.filter (fun r => r.gatherer == k) = [] then none
      else some ((alGet k m).getD [] ++ l.filter (fun r => r.gatherer == k)) := by
  induction l generalizing m with
  | nil =>
    simp only [List.foldl_nil, List.filter_nil]
    cases hm : alGet k m <;> simp [hm]
  | cons r l ih =>
    rw [List.foldl_cons, ih]
    by_cases hg : r.gatherer = k
    · have h1 : alGet k (groupStep m r) = some ((alGet k m).getD [] ++ [r]) := by
        rw [groupStep, hg, alGet_insert_self]
      have h2 : List.filter (fun r => r.gatherer == k) (r :: l) =
          r :: List.filter (fun r => r.gatherer == k) l := by
        simp [List.filter_cons, hg]
      simp [h1, h2]
    · have h1 : alGet k (groupStep m r) = alGet k m := by
        rw [groupStep]
        exact alGet_insert_ne _ _ (fun hc => hg hc.symm)
      have h2 : List.filter (fun r => r.gatherer == k) (r :: l) =
          List.filter (fun r => r.gatherer == k) l := by
        simp [List.filter_cons, hg]
      rw [h1, h2]

theorem groupFold_nodup_keys (l : List FactRequest)
    (m : List (String × List FactRequest)) (hm : (m.map Prod.fst).Nodup) :
    ((l.foldl groupStep m).map Prod.fst).Nodup := by
  induction l generalizing m with
  | nil => simpa using hm
  | cons r l ih =>
    rw [List.foldl_cons]
    exact ih _ (nodup_keys_alInsert _ _ _ hm)

/-- Counting an element in a filtered list. -/
theorem count_filter_eq {α : Type} [DecidableEq α] (p : α → Bool) (a : α) (l : List α) :
    (l.filter p).count a = if p a then l.count a else 0 := by
  induction l with
  | nil => simp
  | cons b l ih =>
    by_cases hb : p b
    · by_cases hab : b = a
      · subst hab
        simp [List.filter_cons, hb, List.count_cons, ih]
      · simp [List.filter_cons, hb, List.count_cons, hab, ih]
    · by_cases hab : b = a
      · subst hab
        simp [List.filter_cons, hb, List.count_cons, ih]
      · simp [List.filter_cons, hb, List.count_cons, hab, ih]

/-- Summing a delta function over a list without duplicates. -/
theorem sum_map_ite_eq {g : String} (keys : List String) (c : Nat)
    (hn : keys.Nodup) :
    (keys.map (fun k => if g = k then c else 0)).sum = if g ∈ keys then c else 0 := by
  induction keys with
  | nil => simp
  | cons k ks ih =>
    rw [List.nodup_cons] at hn
    by_cases hk : g = k
    · subst hk
      have hz : (ks.map (fun k => if g = k then c else 0)).sum = 0 := by
        apply List.sum_eq_zero
        intro x hx
        rcases List.mem_map.mp hx with ⟨y, hy, hxy⟩
        have : ¬ (g = y) := fun hc => hn.1 (hc ▸ hy)
        simp [← hxy, this]
      simp [hz]
    · simp [List.map_cons, List.sum_cons, hk, ih hn.2, List.mem_cons]

theorem bucket_eq_filter {flat : List FactRequest} {p : String × List FactRequest}
    (hp : p ∈ flat.foldl groupStep []) :
    p.2 = flat.filter (fun r => r.gatherer == p.1) := by
  have hn := groupFold_nodup_keys flat [] (by simp)
  have hget := alGet_of_mem_nodup hn hp
  rw [groupFold_alGet] at hget
  by_cases hfil : flat.filter (fun r => r.gatherer == p.1) = []
  · simp [alGet, hfil] at hget
  · simp [alGet, hfil] at hget
    exact hget.symm

theorem groupFold_flatten_perm (flat : List FactRequest) :
    ((flat.foldl groupStep []).map Prod.snd).flatten.Perm flat := by
  rw [List.perm_iff_count]
  intro a
  rw [List.count_flatten]
  have hkeys := groupFold_nodup_keys flat [] (by simp)
  have hmap : ((flat.foldl groupStep []).map Prod.snd).map (List.count a) =
      ((flat.foldl groupStep []).map Prod.fst).map
        (fun k => if a.gatherer = k then flat.count a else 0) := by
    rw [List.map_map, List.map_map]
    apply List.map_congr_left
    intro p hp
    have hb := bucket_eq_filter hp
    simp only [Function.comp]
    rw [hb, count_filter_eq]
    by_cases hg : a.gatherer = p.1 <;> simp [hg]
  rw [hmap, sum_map_ite_eq _ _ hkeys]
  by_cases hmem : a.gatherer ∈ (flat.foldl groupStep []).map Prod.fst
  · simp [hmem]
  · have hnone : alGet a.gatherer (flat.foldl groupStep []) = none :=
      (alGet_eq_none_iff _ _).mpr hmem
    rw [groupFold_alGet] at hnone
    have hfil : flat.filter (fun r => r.gatherer == a.gatherer) = [] := by
      by_contra hne
      simp [alGet, hne] at hnone
    have hz : flat.count a = 0 := by
      rw [List.count_eq_zero]
      intro hmem'
      have hin : a ∈ flat.filter (fun r => r.gatherer == a.gatherer) :=
        List.mem_filter.mpr ⟨hmem', by simp⟩
      rw [hfil] at hin
      simp at hin
    simp [hmem, hz]

/-! ## Claim theorems: aggregation -/

/-- C1: map_fact_gathering_request_from_event partitions the fact requests.
Every bucket holds exactly, in flattened order (target order, then within
target order), the requests whose gatherer field equals its key; bucket
keys are unique; the concatenation of all buckets is a permutation of the
flattened request list, so no request is dropped or duplicated and two
structurally identical requests both appear; and every request sits in the
bucket keyed by its own gatherer field, hence in no other bucket. -/
theorem claim_C1_grouping_partition
    (targets : List FactsGatheringRequestedTarget) (execution_id group_id : String) :
    (∀ k : String,
        (alGet k (map_fact_gathering_request_from_event targets execution_id
            group_id).facts_requests_by_gatherer).getD [] =
          (flattenedFactRequests targets).filter (fun r => r.gatherer == k)) ∧
    ((map_fact_gathering_request_from_event targets execution_id
        group_id).facts_requests_by_gatherer.map Prod.fst).Nodup ∧
    ((map_fact_gathering_request_from_event targets execution_id
        group_id).facts_requests_by_gatherer.map Prod.snd).flatten.Perm
      (flattenedFactRequests targets) ∧
    (∀ p ∈ (map_fact_gathering_request_from_event targets execution_id
        group_id).facts_requests_by_gatherer, ∀ r ∈ p.2, r.gatherer = p.1) := by
  have hbuckets : (map_fact_gathering_request_from_event targets execution_id
      group_id).facts_requests_by_gatherer =
      (flattenedFactRequests targets).foldl groupStep [] := rfl
  rw [hbuckets]
  refine ⟨?_, groupFold_nodup_keys _ _ (by simp), groupFold_flatten_perm _, ?_⟩
  · intro k
    rw [groupFold_alGet]
    by_cases hfil : (flattenedFactRequests targets).filter
        (fun r => r.gatherer == k) = [] <;> simp [alGet, hfil]
  · intro p hp r hr
    have hb := bucket_eq_filter hp
    rw [hb] at hr
    have hmem := (List.mem_filter.mp hr).2
    simpa using hmem

/-- C2 counterexample: a gathering-request event whose decoded payload has a
target addressed to the local agent. handle_event returns Ok but hands no
FactsGatheringRequest to a next stage (the source only logs and never calls
map_fact_gathering_request_from_event), so it does not produce the
aggregated request the claim describes. -/
theorem claim_C2_counterexample :
    EventsPolicy.handle_event ⟨"agent_1"⟩
        (Except.ok FACTS_GATHERING_REQUEST_EVENT_TYPE)
        (Except.ok ⟨"exec1", "group1",
          [⟨"agent_1", [⟨"arg1", "check1", "test_gat", "fact1"⟩]⟩]⟩) =
      Except.ok none ∧
    (Except.ok (some (map_fact_gathering_request_from_event
        [⟨"agent_1", [⟨"arg1", "check1", "test_gat", "fact1"⟩]⟩] "exec1" "group1")) :
      Except String (Option FactsGatheringRequest)) ≠ Except.ok none := by
  constructor
  · decide
  · decide

/-- C2 amended: for every gathering-request event whose payload decodes and
whose filtered targets are non-empty, handle_event returns success, but it
builds no FactsGatheringRequest and hands nothing to a next stage: the
aggregation function is present in the source yet never invoked from
handle_event. -/
theorem claim_C2_amended (policy : EventsPolicy) (ev : FactsGatheringRequested)
    (h : ∃ t ∈ ev.targets, t.agent_id = policy.agent_id) :
    ev.targets.filter (fun t => t.agent_id == policy.agent_id) ≠ [] ∧
    policy.handle_event (Except.ok FACTS_GATHERING_REQUEST_EVENT_TYPE)
      (Except.ok ev) = Except.ok none := by
  constructor
  · rcases h with ⟨t, ht, hid⟩
    intro hc
    have : t ∈ ev.targets.filter (fun t => t.agent_id == policy.agent_id) :=
      List.mem_filter.mpr ⟨ht, by simp [hid]⟩
    rw [hc] at this
    simp at this
  · simp [EventsPolicy.handle_event]

/-- C2 amended, witness: the amended statement applied to a concrete event
with one target addressed to the local agent. -/
theorem claim_C2_amended_witness :
    (∃ t ∈ (⟨"exec1", "group1",
        [⟨"agent_1", [⟨"arg1", "check1", "test_gat", "fact1"⟩]⟩]⟩ :
        FactsGatheringRequested).targets,
      t.agent_id = (⟨"agent_1"⟩ : EventsPolicy).agent_id) ∧
    ((⟨"exec1", "group1",
        [⟨"agent_1", [⟨"arg1", "check1", "test_gat", "fact1"⟩]⟩]⟩ :
        FactsGatheringRequested).targets.filter
          (fun t => t.agent_id == (⟨"agent_1"⟩ : EventsPolicy).agent_id) ≠ [] ∧
      EventsPolicy.handle_event ⟨"agent_1"⟩
          (Except.ok FACTS_GATHERING_REQUEST_EVENT_TYPE)
          (Except.ok ⟨"exec1", "group1",
            [⟨"agent_1", [⟨"arg1", "check1", "test_gat", "fact1"⟩]⟩]⟩) =
        Except.ok none) :=
  ⟨by decide, claim_C2_amended ⟨"agent_1"⟩ _ (by decide)⟩

/-- C8: when a gathering-request event decodes correctly and none of its
targets carries the local agent id, handle_event filters every target away
and returns success with no aggregated request and no error: the empty
filtered set is not a failure. -/
theorem claim_C8_no_local_target (policy : EventsPolicy) (ev : FactsGatheringRequested)
    (h : ∀ t ∈ ev.targets, t.agent_id ≠ policy.agent_id) :
    ev.targets.filter (fun t => t.agent_id == policy.agent_id) = [] ∧
    policy.handle_event (Except.ok FACTS_GATHERING_REQUEST_EVENT_TYPE)
      (Except.ok ev) = Except.ok none := by
  constructor
  · rw [List.filter_eq_nil_iff]
    intro t ht
    simpa using h t ht
  · simp [EventsPolicy.handle_event]

/-- C8 witness: the statement applied to a concrete event whose only target
addresses a different agent. -/
theorem claim_C8_no_local_target_witness :
    (∀ t ∈ (⟨"exec1", "group1",
        [⟨"agent_2", [⟨"arg1", "check1", "test_gat", "fact1"⟩]⟩]⟩ :
        FactsGatheringRequested).targets,
      t.agent_id ≠ (⟨"agent_1"⟩ : EventsPolicy).agent_id) ∧
    ((⟨"exec1", "group1",
        [⟨"agent_2", [⟨"arg1", "check1", "test_gat", "fact1"⟩]⟩]⟩ :
        FactsGatheringRequested).targets.filter
          (fun t => t.agent_id == (⟨"agent_1"⟩ : EventsPolicy).agent_id) = [] ∧
      EventsPolicy.handle_event ⟨"agent_1"⟩
          (Except.ok FACTS_GATHERING_REQUEST_EVENT_TYPE)
          (Except.ok ⟨"exec1", "group1",
            [⟨"agent_2", [⟨"arg1", "check1", "test_gat", "fact1"⟩]⟩]⟩) =
        Except.ok none) :=
  ⟨by decide, claim_C8_no_local_target ⟨"agent_1"⟩ _ (by decide)⟩

/-! ## Split lemmas -/

theorem splitSep_ne_nil (sep : Char) (l : List Char) : splitSep sep l ≠ [] := by
  cases l with
  | nil => simp [splitSep]
  | cons c cs =>
    rw [splitSep]
    by_cases h : c = sep
    · simp [h]
    · simp only [if_neg h]
      cases hs : splitSep sep cs <;> simp

theorem length_splitSep (sep : Char) (l : List Char) :
    (splitSep sep l).length = l.count sep + 1 := by
  induction l with
  | nil => simp [splitSep]
  | cons c cs ih =>
    rw [splitSep]
    by_cases h : c = sep
    · subst h
      simp [List.count_cons, ih]
    · simp only [if_neg h]
      cases hs : splitSep sep cs with
      | nil => exact absurd hs (splitSep_ne_nil sep cs)
      | cons p ps =>
        rw [hs] at ih
        simp only [List.length_cons] at ih
        simp [List.count_cons, h, ih]

theorem splitSep_of_count_zero {sep : Char} {l : List Char} (h : l.count sep = 0) :
    splitSep sep l = [l] := by
  induction l with
  | nil => simp [splitSep]
  | cons c cs ih =>
    rw [List.count_cons] at h
    by_cases hc : c = sep
    · simp [hc] at h
    · have hcs : cs.count sep = 0 := by
        by_contra hne
        simp [hc] at h
        exact hne h
      rw [splitSep, if_neg hc, ih hcs]

theorem splitSep_append {sep : Char} {l1 : List Char} (l2 : List Char)
    (h : l1.count sep = 0) :
    splitSep sep (l1 ++ sep :: l2) = l1 :: splitSep sep l2 := by
  induction l1 with
  | nil => simp [splitSep]
  | cons c cs ih =>
    rw [List.count_cons] at h
    by_cases hc : c = sep
    · simp [hc] at h
    · have hcs : cs.count sep = 0 := by
        by_contra hne
        simp [hc] at h
        exact hne h
      rw [List.cons_append, splitSep, if_neg hc, ih hcs]

/-! ## String order lemmas -/

theorem charListLe_cons_iff {a b : Char} {as bs : List Char} :
    charListLe (a :: as) (b :: bs) = true ↔
      a < b ∨ (a = b ∧ charListLe as bs = true) := by
  rw [charListLe]
  rcases lt_trichotomy a b with h | h | h
  · simp [h]
  · simp [h, lt_irrefl]
  · have h1 : ¬ (a < b) := lt_asymm h
    have h2 : ¬ (a = b) := fun hc => absurd (hc ▸ h) (lt_irrefl b)
    simp [h1, h2, h]

theorem charListLe_refl (l : List Char) : charListLe l l = true := by
  induction l with
  | nil => rfl
  | cons c cs ih => simp [charListLe_cons_iff, ih]

theorem charListLe_total (as bs : List Char) :
    charListLe as bs = true ∨ charListLe bs as = true := by
  induction as generalizing bs with
  | nil => exact Or.inl rfl
  | cons a as ih =>
    cases bs with
    | nil => exact Or.inr rfl
    | cons b bs =>
      rcases lt_trichotomy a b with h | h | h
      · exact Or.inl (charListLe_cons_iff.mpr (Or.inl h))
      · subst h
        rcases ih bs with h' | h'
        · exact Or.inl (charListLe_cons_iff.mpr (Or.inr ⟨rfl, h'⟩))
        · exact Or.inr (charListLe_cons_iff.mpr (Or.inr ⟨rfl, h'⟩))
      · exact Or.inr (charListLe_cons_iff.mpr (Or.inl h))

theorem charListLe_trans {as bs cs : List Char} (h1 : charListLe as bs = true)
    (h2 : charListLe bs cs = true) : charListLe as cs = true := by
  induction as generalizing bs cs with
  | nil => rfl
  | cons a as ih =>
    cases bs with
    | nil => simp [charListLe] at h1
    | cons b bs =>
      cases cs with
      | nil => simp [charListLe] at h2
      | cons c cs =>
        rcases charListLe_cons_iff.mp h1 with hab | ⟨hab, hab'⟩
        · rcases charListLe_cons_iff.mp h2 with hbc | ⟨hbc, _⟩
          · exact charListLe_cons_iff.mpr (Or.inl (lt_trans hab hbc))
          · exact charListLe_cons_iff.mpr (Or.inl (hbc ▸ hab))
        · rcases charListLe_cons_iff.mp h2 with hbc | ⟨hbc, hbc'⟩
          · exact charListLe_cons_iff.mpr (Or.inl (hab ▸ hbc))
          · exact charListLe_cons_iff.mpr (Or.inr ⟨hab.trans hbc, ih hab' hbc'⟩)

instance : IsTotal String strLeRel :=
  ⟨fun a b => charListLe_total a.data b.data⟩

instance : IsTrans String strLeRel :=
  ⟨fun _ _ _ h1 h2 => charListLe_trans h1 h2⟩

theorem strLeRel_refl (s : String) : strLeRel s s := charListLe_refl s.data

theorem sorted_getLast?_max {l : List String} (hs : l.Sorted strLeRel)
    {y : String} (hy : l.getLast? = some y) : ∀ x ∈ l, strLeRel x y := by
  induction l with
  | nil => simp at hy
  | cons a l ih =>
    cases l with
    | nil =>
      simp at hy
      intro x hx
      simp at hx
      rw [hx, ← hy]
      exact strLeRel_refl a
    | cons b l' =>
      rw [List.getLast?_cons_cons] at hy
      rw [List.sorted_cons] at hs
      intro x hx
      rcases List.mem_cons.mp hx with hx | hx
      · have hne : (b :: l') ≠ [] := by simp
        have hymem : y ∈ b :: l' := by
          rw [List.getLast?_eq_getLast _ hne] at hy
          have := List.getLast_mem hne
          rw [Option.some.injEq] at hy
          rw [← hy]
          exact this
        rw [hx]
        exact hs.1 y hymem
      · exact ih hs.2 hy x hx

/-! ## Registry build lemmas -/

theorem get_latest_spec {G : Type} (r : GatherersRegistry G) (name : String)
    {vg : List (String × G)} (hvg : alGet name r.gatherers = some vg)
    (hne : vg ≠ []) :
    ∃ v, r.get_latest_version_for_gatherer name = some (Except.ok v) ∧
      v ∈ vg.map Prod.fst ∧ ∀ w ∈ vg.map Prod.fst, strLeRel w v := by
  rw [GatherersRegistry.get_latest_version_for_gatherer, hvg]
  have hperm : (List.insertionSort strLeRel (vg.map Prod.fst)).Perm
      (vg.map Prod.fst) := List.perm_insertionSort _ _
  have hkne : vg.map Prod.fst ≠ [] := by simpa using hne
  have hsne : List.insertionSort strLeRel (vg.map Prod.fst) ≠ [] := by
    intro hc
    have hlen := hperm.length_eq
    rw [hc] at hlen
    exact hkne (List.eq_nil_of_length_eq_zero hlen.symm)
  have hsorted : (List.insertionSort strLeRel (vg.map Prod.fst)).Sorted strLeRel :=
    List.sorted_insertionSort _ _
  refine ⟨(List.insertionSort strLeRel (vg.map Prod.fst)).getLast hsne, ?_, ?_, ?_⟩
  · dsimp only
    rw [List.getLast?_eq_getLast _ hsne]
    rfl
  · exact hperm.mem_iff.mp (List.getLast_mem hsne)
  · intro w hw
    exact sorted_getLast?_max hsorted (List.getLast?_eq_getLast _ hsne)
      w (hperm.mem_iff.mpr hw)

theorem buildStep_lookup {G : Type} (m : List (String × List (String × G)))
    (a : String × String × G) (n v : String) :
    (alGet n (buildStep m a)).bind (alGet v) =
      if a.1 = n ∧ a.2.1 = v then some a.2.2
      else (alGet n m).bind (alGet v) := by
  by_cases hn : a.1 = n
  · subst hn
    cases hm : alGet a.1 m with
    | some vg =>
      rw [buildStep, hm, alGet_insert_self]
      by_cases hv : a.2.1 = v
      · subst hv
        simp [alGet_insert_self]
      · rw [Option.some_bind, alGet_insert_ne _ _ (fun hc => hv hc.symm)]
        simp [hv, hm]
    | none =>
      rw [buildStep, hm, alGet_insert_self]
      by_cases hv : a.2.1 = v
      · subst hv
        simp [alGet_insert_self]
      · rw [Option.some_bind, alGet_insert_ne _ _ (fun hc => hv hc.symm)]
        simp [hv, hm, alGet]
  · have hne : n ≠ a.1 := fun hc => hn hc.symm
    have hstep : alGet n (buildStep m a) = alGet n m := by
      rw [buildStep]
      cases hm : alGet a.1 m <;> exact alGet_insert_ne _ _ hne
    rw [hstep, if_neg (fun hc => hn hc.1)]

theorem lastWrite_nil {G : Type} (n v : String) :
    lastWrite ([] : List (String × String × G)) n v = none := rfl

theorem lastWrite_cons {G : Type} (a : String × String × G)
    (adds : List (String × String × G)) (n v : String) :
    lastWrite (a :: adds) n v =
      (lastWrite adds n v).or
        (if a.1 = n ∧ a.2.1 = v then some a.2.2 else none) := by
  rw [lastWrite, lastWrite, List.reverse_cons, List.find?_append]
  cases hx : adds.reverse.find? (fun x => x.1 == n && x.2.1 == v) with
  | some b => simp [hx]
  | none =>
    simp only [hx, Option.none_or, Option.map_none]
    rw [List.find?]
    by_cases ha : a.1 = n ∧ a.2.1 = v
    · have : (a.1 == n && a.2.1 == v) = true := by simp [ha.1, ha.2]
      rw [this]
      simp [ha]
    · have : (a.1 == n && a.2.1 == v) = false := by
        rw [Bool.and_eq_false_iff]
        by_cases h1 : a.1 = n
        · right
          have h2 : ¬ (a.2.1 = v) := fun hc => ha ⟨h1, hc⟩
          simp [h2]
        · left
          simp [h1]
      rw [this]
      simp [ha]

theorem buildFold_lookup {G : Type} (adds : List (String × String × G))
    (m : List (String × List (String × G))) (n v : String) :
    (alGet n (adds.foldl buildStep m)).bind (alGet v) =
      (lastWrite adds n v).or ((alGet n m).bind (alGet v)) := by
  induction adds generalizing m with
  | nil => simp [lastWrite_nil]
  | cons a adds ih =>
    rw [List.foldl_cons, ih, buildStep_lookup, lastWrite_cons, Option.or_assoc]
    cases hl : lastWrite adds n v with
    | some g => simp
    | none =>
      simp only [Option.none_or]
      by_cases ha : a.1 = n ∧ a.2.1 = v <;> simp [ha]

theorem build_registry_lookup {G : Type} (b : GatherersRegistryBuilder G)
    (n v : String) :
    registryLookup b.build_registry n v = lastWrite b.gatherers n v := by
  rw [registryLookup, GatherersRegistryBuilder.build_registry]
  rw [buildFold_lookup]
  simp [alGet]

theorem alInsert_ne_nil {α : Type} (k : String) (v : α) (m : List (String × α)) :
    alInsert k v m ≠ [] := by
  cases m with
  | nil => simp [alInsert]
  | cons p ps =>
    rw [alInsert]
    split <;> simp

theorem buildFold_inner_ne_nil {G : Type} (adds : List (String × String × G))
    (m : List (String × List (String × G))) (hm : ∀ p ∈ m, p.2 ≠ []) :
    ∀ p ∈ adds.foldl buildStep m, p.2 ≠ [] := by
  induction adds generalizing m with
  | nil => simpa using hm
  | cons a adds ih =>
    rw [List.foldl_cons]
    apply ih
    intro p hp
    rw [buildStep] at hp
    cases hm' : alGet a.1 m with
    | some vg =>
      rw [hm'] at hp
      rcases mem_alInsert hp with h | h
      · rw [h]
        exact alInsert_ne_nil _ _ _
      · exact hm p h
    | none =>
      rw [hm'] at hp
      rcases mem_alInsert hp with h | h
      · rw [h]
        exact alInsert_ne_nil _ _ _
      · exact hm p h

theorem build_registry_inner_ne_nil {G : Type} (b : GatherersRegistryBuilder G)
    {n : String} {vg : List (String × G)}
    (h : alGet n b.build_registry.gatherers = some vg) : vg ≠ [] :=
  buildFold_inner_ne_nil b.gatherers [] (by simp) (n, vg) (alGet_mem h)

/-! ## Reference parsing lemmas -/

theorem stringSplit_no_sep {s : String} (h : s.data.count '@' = 0) :
    stringSplit '@' s = [s] := by
  rw [stringSplit, splitSep_of_count_zero h]
  rfl

theorem stringSplit_sep_pair {n v : String} (hn : n.data.count '@' = 0)
    (hv : v.data.count '@' = 0) :
    stringSplit '@' (n ++ "@" ++ v) = [n, v] := by
  have hat : ("@" : String).data = ['@'] := by decide
  have hdata : (n ++ "@" ++ v).data = n.data ++ '@' :: v.data := by
    rw [String.data_append, String.data_append, hat, List.append_assoc]
    rfl
  rw [stringSplit, hdata, splitSep_append _ hn, splitSep_of_count_zero hv]
  rfl

theorem length_stringSplit (sep : Char) (s : String) :
    (stringSplit sep s).length = s.data.count sep + 1 := by
  rw [stringSplit, List.length_map, length_splitSep]

theorem extract_no_sep {s : String} (h : s.data.count '@' = 0) :
    extract_version_and_gatherer_name s = Except.ok (s, none) := by
  rw [extract_version_and_gatherer_name, stringSplit_no_sep h]
  rfl

theorem extract_sep_pair {n v : String} (hn : n.data.count '@' = 0)
    (hv : v.data.count '@' = 0) :
    extract_version_and_gatherer_name (n ++ "@" ++ v) = Except.ok (n, some v) := by
  rw [extract_version_and_gatherer_name, stringSplit_sep_pair hn hv]
  rfl

theorem extract_one_sep {s : String} (h : s.data.count '@' = 1) :
    ∃ n v, stringSplit '@' s = [n, v] ∧
      extract_version_and_gatherer_name s = Except.ok (n, some v) := by
  have hlen : (stringSplit '@' s).length = 2 := by
    rw [length_stringSplit, h]
  rcases List.length_eq_two.mp hlen with ⟨n, v, hnv⟩
  refine ⟨n, v, hnv, ?_⟩
  rw [extract_version_and_gatherer_name, hnv]
  rfl

theorem extract_many_sep {s : String} (h : 1 < s.data.count '@') :
    extract_version_and_gatherer_name s =
      Except.error (RegistryErrors.GathererNameAndVersionError s) := by
  have h1 : ¬ ((stringSplit '@' s).length = 1) := by
    rw [length_stringSplit]
    omega
  have h2 : (stringSplit '@' s).length ≠ 2 := by
    rw [length_stringSplit]
    omega
  rw [extract_version_and_gatherer_name, if_neg h1, if_pos h2]

theorem lastWrite_last_match {G : Type} (l1 l2 : List (String × String × G))
    (n v : String) (g : G) (hl2 : ∀ a ∈ l2, ¬ (a.1 = n ∧ a.2.1 = v)) :
    lastWrite (l1 ++ (n, v, g) :: l2) n v = some g := by
  rw [lastWrite, List.reverse_append, List.reverse_cons, List.find?_append,
    List.find?_append]
  have h2 : l2.reverse.find? (fun a => a.1 == n && a.2.1 == v) = none := by
    rw [List.find?_eq_none]
    intro a ha
    have hna := hl2 a (List.mem_reverse.mp ha)
    simp only [Bool.and_eq_true, beq_iff_eq, not_and]
    intro hc1 hc2
    exact hna ⟨hc1, hc2⟩
  have hx : List.find? (fun a => a.1 == n && a.2.1 == v)
      [((n, v, g) : String × String × G)] = some (n, v, g) := by
    simp [List.find?]
  rw [h2, hx, Option.none_or]
  rfl

theorem lastWrite_middle_skip {G : Type} (A B : List (String × String × G))
    (x : String × String × G) (n' v' : String)
    (hx : ¬ (x.1 = n' ∧ x.2.1 = v')) :
    lastWrite (A ++ x :: B) n' v' = lastWrite (A ++ B) n' v' := by
  rw [lastWrite, lastWrite, List.reverse_append, List.reverse_cons,
    List.reverse_append, List.find?_append, List.find?_append, List.find?_append]
  have hxf : List.find? (fun a => a.1 == n' && a.2.1 == v') [x] = none := by
    rw [List.find?_eq_none]
    intro a ha
    simp only [List.mem_singleton] at ha
    subst ha
    simp only [Bool.and_eq_true, beq_iff_eq, not_and]
    intro hc1 hc2
    exact hx ⟨hc1, hc2⟩
  rw [hxf, Option.or_none]

theorem resolve_of_lastWrite {G : Type} (b : GatherersRegistryBuilder G)
    (n v : String) (g : G) (hn : n.data.count '@' = 0) (hv : v.data.count '@' = 0)
    (hlw : lastWrite b.gatherers n v = some g) :
    b.build_registry.get_gatherer (n ++ "@" ++ v) = some (Except.ok g) := by
  have hlook : registryLookup b.build_registry n v = some g := by
    rw [build_registry_lookup, hlw]
  rw [registryLookup] at hlook
  obtain ⟨vg, hvg, hgv⟩ := Option.bind_eq_some.mp hlook
  have hne : vg ≠ [] := build_registry_inner_ne_nil b hvg
  obtain ⟨latest, hlat, _, _⟩ := get_latest_spec _ _ hvg hne
  rw [GatherersRegistry.get_gatherer, extract_sep_pair hn hv]
  dsimp only
  rw [hlat]
  dsimp only
  rw [hvg, Option.some_bind, Option.getD_some, hgv]

/-! ## Claim theorems: registry -/

/-- C3: for every registry and every reference with no at sign whose name is
registered with a non-empty version map, get_gatherer resolves to the
gatherer stored under the lexicographically maximal version string (in the
byte-wise string order strLeRel, not numeric or semantic ordering); in
particular, with versions v1 and v2 it picks v2's handle, and with versions
v9 and v10 it picks v9's handle. -/
theorem claim_C3_latest_is_lex_max {G : Type} (r : GatherersRegistry G)
    (s : String) (vg : List (String × G)) (hs : s.data.count '@' = 0)
    (hvg : alGet s r.gatherers = some vg) (hne : vg ≠ []) :
    (∃ v g, v ∈ vg.map Prod.fst ∧ (∀ w ∈ vg.map Prod.fst, strLeRel w v) ∧
      alGet v vg = some g ∧ r.get_gatherer s = some (Except.ok g)) ∧
    GatherersRegistry.get_gatherer
      (⟨[("g", [("v1", (0 : Nat)), ("v2", 1)])]⟩ : GatherersRegistry Nat) "g" =
      some (Except.ok 1) ∧
    GatherersRegistry.get_gatherer
      (⟨[("g", [("v9", (0 : Nat)), ("v10", 1)])]⟩ : GatherersRegistry Nat) "g" =
      some (Except.ok 0) := by
  refine ⟨?_, by decide, by decide⟩
  obtain ⟨v, hlat, hvmem, hvmax⟩ := get_latest_spec r s hvg hne
  obtain ⟨g, hg⟩ := alGet_isSome_of_mem_keys hvmem
  refine ⟨v, g, hvmem, hvmax, hg, ?_⟩
  rw [GatherersRegistry.get_gatherer, extract_no_sep hs]
  dsimp only
  rw [hlat]
  dsimp only
  rw [hvg, Option.some_bind, Option.getD_none, hg]

/-- C3 witness: the general statement applied to a concrete registry with
versions v9 and v10 registered for the name g. -/
theorem claim_C3_latest_is_lex_max_witness :
    ("g" : String).data.count '@' = 0 ∧
    alGet "g" (⟨[("g", [("v9", (0 : Nat)), ("v10", 1)])]⟩ :
      GatherersRegistry Nat).gatherers = some [("v9", 0), ("v10", 1)] ∧
    ([("v9", (0 : Nat)), ("v10", 1)] : List (String × Nat)) ≠ [] ∧
    (∃ v g, v ∈ ([("v9", (0 : Nat)), ("v10", 1)] : List (String × Nat)).map Prod.fst ∧
      (∀ w ∈ ([("v9", (0 : Nat)), ("v10", 1)] : List (String × Nat)).map Prod.fst,
        strLeRel w v) ∧
      alGet v ([("v9", (0 : Nat)), ("v10", 1)] : List (String × Nat)) = some g ∧
      GatherersRegistry.get_gatherer
        (⟨[("g", [("v9", (0 : Nat)), ("v10", 1)])]⟩ : GatherersRegistry Nat) "g" =
        some (Except.ok g)) :=
  ⟨by decide, by decide, by decide,
    (claim_C3_latest_is_lex_max
      (⟨[("g", [("v9", (0 : Nat)), ("v10", 1)])]⟩ : GatherersRegistry Nat)
      "g" [("v9", 0), ("v10", 1)] (by decide) (by decide) (by decide)).1⟩

/-- C4: resolve round-trip. For every registration (name, version, gatherer)
added to a builder and not overwritten by a later add of the same
(name, version) pair, the built registry resolves the reference
name-at-version to exactly that gatherer handle. The name and version are
at-sign-free, as the reference format of the spec requires. -/
theorem claim_C4_resolve_round_trip {G : Type} (l1 l2 : List (String × String × G))
    (n v : String) (g : G) (hn : n.data.count '@' = 0) (hv : v.data.count '@' = 0)
    (hl2 : ∀ a ∈ l2, ¬ (a.1 = n ∧ a.2.1 = v)) :
    (GatherersRegistryBuilder.mk (l1 ++ (n, v, g) :: l2)).build_registry.get_gatherer
      (n ++ "@" ++ v) = some (Except.ok g) :=
  resolve_of_lastWrite _ n v g hn hv (lastWrite_last_match l1 l2 n v g hl2)

/-- C4 witness: a concrete builder with one registration, resolved back. -/
theorem claim_C4_resolve_round_trip_witness :
    ("a" : String).data.count '@' = 0 ∧ ("v1" : String).data.count '@' = 0 ∧
    (∀ a ∈ ([] : List (String × String × Nat)), ¬ (a.1 = "a" ∧ a.2.1 = "v1")) ∧
    (GatherersRegistryBuilder.mk
        ([] ++ ("a", "v1", (5 : Nat)) :: [])).build_registry.get_gatherer
      ("a" ++ "@" ++ "v1") = some (Except.ok 5) :=
  ⟨by decide, by decide, by decide,
    claim_C4_resolve_round_trip [] [] "a" "v1" 5 (by decide) (by decide) (by decide)⟩

/-- C6: a reference with more than one at sign makes get_gatherer fail with
GathererNameAndVersionError carrying the whole original reference, on every
registry alike: the registry contents are never consulted. -/
theorem claim_C6_name_format_error {G : Type} (r : GatherersRegistry G)
    (ref : String) (h : 1 < ref.data.count '@') :
    r.get_gatherer ref =
      some (Except.error (RegistryErrors.GathererNameAndVersionError ref)) := by
  rw [GatherersRegistry.get_gatherer, extract_many_sep h]

/-- C6 witness: the statement applied to the reference with two at signs
from the spec, on an empty registry. -/
theorem claim_C6_name_format_error_witness :
    1 < ("a@b@c" : String).data.count '@' ∧
    GatherersRegistry.get_gatherer (⟨[]⟩ : GatherersRegistry Nat) "a@b@c" =
      some (Except.error (RegistryErrors.GathererNameAndVersionError "a@b@c")) :=
  ⟨by decide, claim_C6_name_format_error ⟨[]⟩ "a@b@c" (by decide)⟩

/-- C7: last write wins. When the same (name, version) pair is added twice
with different gatherers, building succeeds (build_registry is total) and
the built registry resolves the pair's reference to the later gatherer;
lookups under every other (name, version) pair are exactly what they would
be had the two duplicate adds been removed. -/
theorem claim_C7_last_write_wins {G : Type} (l1 l2 l3 : List (String × String × G))
    (n v : String) (g1 g2 : G) (_hg12 : g1 ≠ g2)
    (hn : n.data.count '@' = 0) (hv : v.data.count '@' = 0)
    (hl3 : ∀ a ∈ l3, ¬ (a.1 = n ∧ a.2.1 = v)) :
    (GatherersRegistryBuilder.mk
        (l1 ++ (n, v, g1) :: (l2 ++ (n, v, g2) :: l3))).build_registry.get_gatherer
      (n ++ "@" ++ v) = some (Except.ok g2) ∧
    ∀ n' v', ¬ (n' = n ∧ v' = v) →
      registryLookup (GatherersRegistryBuilder.mk
          (l1 ++ (n, v, g1) :: (l2 ++ (n, v, g2) :: l3))).build_registry n' v' =
        registryLookup (GatherersRegistryBuilder.mk
          (l1 ++ (l2 ++ l3))).build_registry n' v' := by
  constructor
  · apply resolve_of_lastWrite _ n v g2 hn hv
    have hshape : l1 ++ (n, v, g1) :: (l2 ++ (n, v, g2) :: l3) =
        (l1 ++ (n, v, g1) :: l2) ++ (n, v, g2) :: l3 := by
      simp [List.append_assoc]
    rw [hshape]
    exact lastWrite_last_match _ l3 n v g2 hl3
  · intro n' v' hnv
    rw [build_registry_lookup, build_registry_lookup]
    have hx : ¬ ((n, v, g1).1 = n' ∧ (n, v, g1).2.1 = v') := by
      intro hc
      exact hnv ⟨hc.1.symm, hc.2.symm⟩
    have hy : ¬ ((n, v, g2).1 = n' ∧ (n, v, g2).2.1 = v') := by
      intro hc
      exact hnv ⟨hc.1.symm, hc.2.symm⟩
    have hshape : l1 ++ (n, v, g1) :: (l2 ++ (n, v, g2) :: l3) =
        l1 ++ (n, v, g1) :: ((l2 ++ (n, v, g2) :: l3)) := rfl
    rw [lastWrite_middle_skip l1 (l2 ++ (n, v, g2) :: l3) (n, v, g1) n' v' hx]
    have hshape2 : l1 ++ (l2 ++ (n, v, g2) :: l3) =
        (l1 ++ l2) ++ (n, v, g2) :: l3 := by
      simp [List.append_assoc]
    rw [hshape2, lastWrite_middle_skip (l1 ++ l2) l3 (n, v, g2) n' v' hy,
      List.append_assoc]

/-- C7 witness: a concrete builder adding the pair (a, v1) twice with
handles 1 then 2; the built registry resolves to 2. -/
theorem claim_C7_last_write_wins_witness :
    ((1 : Nat) ≠ 2) ∧ ("a" : String).data.count '@' = 0 ∧
    ("v1" : String).data.count '@' = 0 ∧
    (∀ a ∈ ([] : List (String × String × Nat)), ¬ (a.1 = "a" ∧ a.2.1 = "v1")) ∧
    (GatherersRegistryBuilder.mk
        ([] ++ ("a", "v1", (1 : Nat)) :: ([] ++ ("a", "v1", (2 : Nat)) :: []))).build_registry.get_gatherer
      ("a" ++ "@" ++ "v1") = some (Except.ok 2) :=
  ⟨by decide, by decide, by decide, by decide,
    (claim_C7_last_write_wins [] [] [] "a" "v1" 1 2 (by decide) (by decide)
      (by decide) (by decide)).1⟩

/-- C5: evaluation at the failing input. Resolving other-at-v1 on a registry
not containing the name returns NotFoundError carrying the bare name
"other", not the whole composite reference "other@v1" the claim and the
repository's own test expect: Rust evaluates the unwrap_or argument
eagerly, so the error of get_latest_version_for_gatherer (which carries
only the bare name) propagates before the explicit version is used. -/
theorem claim_C5_notfound_payload :
    GatherersRegistry.get_gatherer
      (⟨[("test_gatherer", [("v1", (0 : Nat))])]⟩ : GatherersRegistry Nat)
      "other@v1" =
      some (Except.error (RegistryErrors.GathererNotFoundError "other")) ∧
    RegistryErrors.GathererNotFoundError "other" ≠
      RegistryErrors.GathererNotFoundError "other@v1" :=
  ⟨by decide, by decide⟩

/-- C9: a built registry never panics. Every name in the outer map of a
built registry has a non-empty version map, so the last-element unwrap in
get_latest_version_for_gatherer cannot fire: get_gatherer on a built
registry is total, returning a gatherer or an error value but never the
panic marker. -/
theorem claim_C9_resolve_total {G : Type} (b : GatherersRegistryBuilder G) :
    (∀ p ∈ b.build_registry.gatherers, p.2 ≠ []) ∧
    ∀ ref, b.build_registry.get_gatherer ref ≠ none := by
  constructor
  · exact buildFold_inner_ne_nil b.gatherers [] (by simp)
  · intro ref
    rw [GatherersRegistry.get_gatherer]
    cases hex : extract_version_and_gatherer_name ref with
    | error e => simp
    | ok p =>
      obtain ⟨gn, ver⟩ := p
      dsimp only
      cases hg : alGet gn b.build_registry.gatherers with
      | none =>
        rw [GatherersRegistry.get_latest_version_for_gatherer, hg]
        simp
      | some vg =>
        have hne := build_registry_inner_ne_nil b hg
        obtain ⟨latest, hlat, _, _⟩ := get_latest_spec _ _ hg hne
        rw [hlat]
        dsimp only
        cases hb : alGet (ver.getD latest) vg <;> simp [hb]

/-- C10: a reference with exactly one at sign never yields
GathererNameAndVersionError, even when the name or version piece is empty:
it parses as a (name, some version) pair and the lookup proceeds, returning
the registered handle when the pair is registered and a NotFoundError
otherwise; in particular name-at-nothing and nothing-at-v1 both parse. -/
theorem claim_C10_single_sep_lenient {G : Type} (b : GatherersRegistryBuilder G)
    (ref : String) (h : ref.data.count '@' = 1) :
    (∃ n v, extract_version_and_gatherer_name ref = Except.ok (n, some v) ∧
      ((∃ g, b.build_registry.get_gatherer ref = some (Except.ok g) ∧
          registryLookup b.build_registry n v = some g) ∨
        (registryLookup b.build_registry n v = none ∧
          ∃ s, b.build_registry.get_gatherer ref =
            some (Except.error (RegistryErrors.GathererNotFoundError s))))) ∧
    extract_version_and_gatherer_name "name@" = Except.ok ("name", some "") ∧
    extract_version_and_gatherer_name "@v1" = Except.ok ("", some "v1") := by
  refine ⟨?_, by decide, by decide⟩
  obtain ⟨n, v, hsplit, hex⟩ := extract_one_sep h
  refine ⟨n, v, hex, ?_⟩
  rw [GatherersRegistry.get_gatherer, hex]
  dsimp only
  cases hg : alGet n b.build_registry.gatherers with
  | none =>
    rw [GatherersRegistry.get_latest_version_for_gatherer, hg]
    dsimp only
    right
    constructor
    · rw [registryLookup, hg]
      rfl
    · exact ⟨n, rfl⟩
  | some vg =>
    have hne := build_registry_inner_ne_nil b hg
    obtain ⟨latest, hlat, _, _⟩ := get_latest_spec _ _ hg hne
    rw [hlat]
    dsimp only
    rw [Option.some_bind, Option.getD_some]
    cases hvv : alGet v vg with
    | some g =>
      left
      refine ⟨g, rfl, ?_⟩
      rw [registryLookup, hg, Option.some_bind, hvv]
    | none =>
      right
      refine ⟨?_, ref, rfl⟩
      rw [registryLookup, hg, Option.some_bind, hvv]

/-- C10 witness: the statement applied to the reference with an empty
version piece on a builder registering only (a, v1): parsing succeeds and
the lookup fails with a NotFoundError, never a format error. -/
theorem claim_C10_single_sep_lenient_witness :
    ("a@" : String).data.count '@' = 1 ∧
    (∃ n v, extract_version_and_gatherer_name "a@" = Except.ok (n, some v) ∧
      ((∃ g, (GatherersRegistryBuilder.mk
            [("a", "v1", (5 : Nat))]).build_registry.get_gatherer "a@" =
            some (Except.ok g) ∧
          registryLookup (GatherersRegistryBuilder.mk
            [("a", "v1", (5 : Nat))]).build_registry n v = some g) ∨
        (registryLookup (GatherersRegistryBuilder.mk
            [("a", "v1", (5 : Nat))]).build_registry n v = none ∧
          ∃ s, (GatherersRegistryBuilder.mk
              [("a", "v1", (5 : Nat))]).build_registry.get_gatherer "a@" =
              some (Except.error (RegistryErrors.GathererNotFoundError s))))) :=
  ⟨by decide, (claim_C10_single_sep_lenient
    (GatherersRegistryBuilder.mk [("a", "v1", (5 : Nat))]) "a@" (by decide)).1⟩

/-- Builder calls produce exactly the registration lists the round-trip and
last-write theorems quantify over: add_gatherer appends one triple. -/
theorem add_gatherer_appends {G : Type} (b : GatherersRegistryBuilder G)
    (n v : String) (g : G) :
    (b.add_gatherer n v g).gatherers = b.gatherers ++ [(n, v, g)] := rfl

end Vanvitelli
